import Mathlib

/-!
Verification of `main_kSat_probAlg.py`: Schöning's probabilistic local-search
algorithm for k-SAT.  The Python functions `checkCfg`, `schoening_kSat` and
`constructCNF` are embedded shallowly; the ambient randomness
(`random.choice`, `random.sample`) is made explicit as oracle parameters,
with `random.choice lst` modelled as `lst[i % lst.length]` for an arbitrary
oracle value `i` (every valid uniform draw corresponds to some oracle).
Python's negative-index semantics for list reads and writes is modelled by
`pyGetD` / `pySet`.
-/

/-- A literal is a signed integer: magnitude = 1-indexed variable, sign = polarity. -/
abbrev Clause := List Int

/-- A CNF is a list of clauses. -/
abbrev CNF := List Clause

/-- A configuration (assignment) is a list of integer values (0/1 for binary). -/
abbrev Cfg := List Int

/-- Python list read `cfg[i]` for an integer index: negative indices count from
the end; out-of-range reads (an error in Python) default to 0. -/
def pyGetD (cfg : Cfg) (i : Int) : Int :=
  if i < 0 then List.getD cfg (cfg.length - (-i).toNat) 0
  else List.getD cfg i.toNat 0

/-- Python list write `cfg[i] = v` for an integer index: negative indices count
from the end; out-of-range writes (an error in Python) leave the list unchanged. -/
def pySet (cfg : Cfg) (i : Int) (v : Int) : Cfg :=
  if i < 0 then List.set cfg (cfg.length - (-i).toNat) v
  else List.set cfg i.toNat v

/-- The test `(li>0) == cfg[abs(li)-1]` from `checkCfg`'s inner loop: Python
compares the boolean (as 0/1) with the stored value. -/
def litSat (cfg : Cfg) (li : Int) : Bool :=
  (if 0 < li then (1 : Int) else 0) == pyGetD cfg (|li| - 1)

/-- `checkCfg cnf cfg` from the source: for each clause count the satisfied
literals (`nTrue`); the formula is satisfied iff no clause has `nTrue == 0`.
The early `break` in the Python loop does not change the result. -/
def checkCfg (cnf : CNF) (cfg : Cfg) : Bool :=
  cnf.all (fun ci => !(ci.countP (litSat cfg) == 0))

/-- The abbreviation `notSat = lambda ci: checkCfg([ci],cfg)==False` from
`schoening_kSat`. -/
def notSat (cfg : Cfg) (ci : Clause) : Bool :=
  checkCfg [ci] cfg == false

/-- The literals of the CNF are nonzero and index into the configuration
(Python would otherwise wrap to a negative index or raise `IndexError`). -/
def wfCnf (cnf : CNF) (cfg : Cfg) : Prop :=
  ∀ ci ∈ cnf, ∀ li ∈ ci, li ≠ 0 ∧ li.natAbs ≤ cfg.length

/-- The configuration is binary, as the spec's Assignment entity requires. -/
def binaryCfg (cfg : Cfg) : Prop :=
  ∀ v ∈ cfg, v = 0 ∨ v = 1

/-- The spec's notion of a literal agreeing with the assignment: a positive
literal agrees iff the variable's value (at index magnitude-1) is 1, a
negative literal agrees iff it is 0. -/
def litAgrees (cfg : Cfg) (li : Int) : Prop :=
  (0 < li ∧ List.getD cfg (li.natAbs - 1) 0 = 1) ∨
  (li < 0 ∧ List.getD cfg (li.natAbs - 1) 0 = 0)

lemma pyGetD_of_ne_zero (cfg : Cfg) (li : Int) (h : li ≠ 0) :
    pyGetD cfg (|li| - 1) = List.getD cfg (li.natAbs - 1) 0 := by
  have h1 : (1 : Int) ≤ |li| := by
    rcases lt_or_gt_of_ne h with h' | h'
    · calc (1 : Int) ≤ -li := by omega
        _ ≤ |li| := by rw [abs_of_neg h']
    · calc (1 : Int) ≤ li := by omega
        _ ≤ |li| := by rw [abs_of_pos h']
  have h2 : ¬ (|li| - 1 < 0) := by omega
  have h3 : (|li| - 1).toNat = li.natAbs - 1 := by
    rw [Int.abs_eq_natAbs]
    omega
  simp [pyGetD, h2, h3]

lemma litSat_iff_litAgrees (cfg : Cfg) (li : Int) (h : li ≠ 0) :
    litSat cfg li = true ↔ litAgrees cfg li := by
  unfold litSat litAgrees
  rw [pyGetD_of_ne_zero cfg li h]
  rcases lt_or_gt_of_ne h with h' | h'
  · simp [not_lt.mpr (le_of_lt h'), h']
    constructor
    · intro hv
      exact hv.symm
    · intro hv
      exact hv.symm
  · simp [h', asymm h']
    constructor
    · intro hv
      exact hv.symm
    · intro hv
      exact hv.symm

/-- C1: `checkCfg cnf cfg` is true iff every clause of `cnf` contains at
least one literal that agrees with the binary assignment `cfg` (positive
literal: value 1 at index magnitude-1; negative literal: value 0); moreover a
CNF consisting of a single empty clause yields false, and the empty CNF yields
true. -/
theorem checkCfg_iff_all_clauses_agree (cnf : CNF) (cfg : Cfg)
    (hb : binaryCfg cfg) (hwf : wfCnf cnf cfg) :
    (checkCfg cnf cfg = true ↔ ∀ ci ∈ cnf, ∃ li ∈ ci, litAgrees cfg li) ∧
    checkCfg [([] : Clause)] cfg = false ∧ checkCfg ([] : CNF) cfg = true := by
  refine ⟨?_, by simp [checkCfg], by simp [checkCfg]⟩
  unfold checkCfg
  rw [List.all_eq_true]
  constructor
  · intro h ci hci
    have h' := h ci hci
    have hcnt : ci.countP (litSat cfg) ≠ 0 := by
      intro hc
      simp [hc] at h'
    rw [Ne, List.countP_eq_zero] at hcnt
    push_neg at hcnt
    obtain ⟨li, hli, hsat⟩ := hcnt
    exact ⟨li, hli, (litSat_iff_litAgrees cfg li (hwf ci hci li hli).1).mp hsat⟩
  · intro h ci hci
    obtain ⟨li, hli, hag⟩ := h ci hci
    have hsat : litSat cfg li = true :=
      (litSat_iff_litAgrees cfg li (hwf ci hci li hli).1).mpr hag
    have : ci.countP (litSat cfg) ≠ 0 := by
      rw [Ne, List.countP_eq_zero]
      push_neg
      exact ⟨li, hli, by simp [hsat]⟩
    simp [this]

/-- Witness for C1 at a concrete formula and assignment. -/
theorem checkCfg_iff_all_clauses_agree_witness :
    binaryCfg [1, 0] ∧ wfCnf [[1, -2], [-1]] [1, 0] ∧
    ((checkCfg [[1, -2], [-1]] [1, 0] = true ↔
      ∀ ci ∈ [[1, -2], [-1]], ∃ li ∈ ci, litAgrees [1, 0] li) ∧
     checkCfg [([] : Clause)] [1, 0] = false ∧ checkCfg ([] : CNF) [1, 0] = true) := by
  refine ⟨by unfold binaryCfg; decide, by unfold wfCnf; decide, ?_⟩
  exact checkCfg_iff_all_clauses_agree [[1, -2], [-1]] [1, 0]
    (by unfold binaryCfg; decide) (by unfold wfCnf; decide)

/-- The body of one loop iteration of `schoening_kSat` (executed when the
formula is not yet satisfied): pick a random unsatisfied clause
(`random.choice` modelled as index `val % length`), pick a random literal in
it, compute `vId = abs(literal) - 1` and flip `cfg[vId]` to `1 - cfg[vId]`.
Returns the updated configuration and the flipped index `vId`. -/
def schoeningStep (cnf : CNF) (oracle : Nat → Nat × Nat) (t : Nat) (cfg : Cfg) :
    Cfg × Int :=
  let unsat := cnf.filter (notSat cfg)
  let ci := unsat.getD ((oracle t).1 % unsat.length) []
  let li := ci.getD ((oracle t).2 % ci.length) 0
  let vId : Int := |li| - 1
  (pySet cfg vId (1 - pyGetD cfg vId), vId)

/-- One run of the `while nTries:` loop of `schoening_kSat`, instrumented with
a ghost trace of flips.  `oracle t` supplies the two random draws of loop
iteration `t`.  Returns `(remaining nTries, cfg, flip trace)`; each trace
entry records the configuration at the moment of the flip and the flipped
index `vId`. -/
def schoeningAux (cnf : CNF) (oracle : Nat → Nat × Nat) :
    Nat → Nat → Cfg → Nat × Cfg × List (Cfg × Int)
  | _, 0, cfg => (0, cfg, [])
  | t, n + 1, cfg =>
    if checkCfg cnf cfg then (n + 1, cfg, [])
    else
      let s := schoeningStep cnf oracle t cfg
      let r := schoeningAux cnf oracle (t + 1) n s.1
      (r.1, r.2.1, (cfg, s.2) :: r.2.2)

/-- `schoening_kSat cnf cfg nTries` from the source, for a given randomness
oracle: returns `(remaining nTries, cfg)` after the loop. -/
def schoening_kSat (cnf : CNF) (oracle : Nat → Nat × Nat) (cfg : Cfg)
    (nTries : Nat) : Nat × Cfg :=
  ((schoeningAux cnf oracle 0 nTries cfg).1, (schoeningAux cnf oracle 0 nTries cfg).2.1)

/-- The ghost flip trace of a `schoening_kSat` run: one entry per executed
flip, recording the configuration right before the flip and the flipped index. -/
def schoeningTrace (cnf : CNF) (oracle : Nat → Nat × Nat) (cfg : Cfg)
    (nTries : Nat) : List (Cfg × Int) :=
  (schoeningAux cnf oracle 0 nTries cfg).2.2

lemma schoeningAux_zero (cnf : CNF) (oracle : Nat → Nat × Nat) (t : Nat) (cfg : Cfg) :
    schoeningAux cnf oracle t 0 cfg = (0, cfg, []) := rfl

lemma schoeningAux_sat (cnf : CNF) (oracle : Nat → Nat × Nat) (t n : Nat)
    (cfg : Cfg) (h : checkCfg cnf cfg = true) :
    schoeningAux cnf oracle t (n + 1) cfg = (n + 1, cfg, []) := by
  unfold schoeningAux
  rw [if_pos h]

lemma schoeningAux_unsat (cnf : CNF) (oracle : Nat → Nat × Nat) (t n : Nat)
    (cfg : Cfg) (h : checkCfg cnf cfg = false) :
    schoeningAux cnf oracle t (n + 1) cfg =
      ((schoeningAux cnf oracle (t + 1) n (schoeningStep cnf oracle t cfg).1).1,
       (schoeningAux cnf oracle (t + 1) n (schoeningStep cnf oracle t cfg).1).2.1,
       (cfg, (schoeningStep cnf oracle t cfg).2) ::
         (schoeningAux cnf oracle (t + 1) n (schoeningStep cnf oracle t cfg).1).2.2) := by
  conv_lhs => rw [schoeningAux]
  rw [if_neg (by simp [h])]

lemma schoeningAux_of_sat (cnf : CNF) (oracle : Nat → Nat × Nat) (t n : Nat)
    (cfg : Cfg) (h : checkCfg cnf cfg = true) :
    schoeningAux cnf oracle t n cfg = (n, cfg, []) := by
  cases n with
  | zero => exact schoeningAux_zero cnf oracle t cfg
  | succ n => exact schoeningAux_sat cnf oracle t n cfg h

/-- C2: If the assignment already satisfies the CNF (which includes the
empty CNF), `schoening_kSat` performs zero flips: the budget is returned
unchanged and the assignment is exactly the input. -/
theorem schoening_kSat_idempotent (cnf : CNF) (oracle : Nat → Nat × Nat)
    (cfg : Cfg) (nTries : Nat) (h : checkCfg cnf cfg = true) :
    schoening_kSat cnf oracle cfg nTries = (nTries, cfg) ∧
    schoeningTrace cnf oracle cfg nTries = [] ∧
    schoening_kSat ([] : CNF) oracle cfg nTries = (nTries, cfg) := by
  refine ⟨?_, ?_, ?_⟩
  · unfold schoening_kSat
    rw [schoeningAux_of_sat cnf oracle 0 nTries cfg h]
  · unfold schoeningTrace
    rw [schoeningAux_of_sat cnf oracle 0 nTries cfg h]
  · unfold schoening_kSat
    rw [schoeningAux_of_sat ([] : CNF) oracle 0 nTries cfg (by simp [checkCfg])]

/-- Witness for C2: the assignment `[1]` satisfies `[[1]]`, so a run with
budget 3 returns budget 3 and the assignment untouched. -/
theorem schoening_kSat_idempotent_witness :
    checkCfg [[1]] [1] = true ∧
    (schoening_kSat [[1]] (fun _ => (0, 0)) [1] 3 = (3, [1]) ∧
     schoeningTrace [[1]] (fun _ => (0, 0)) [1] 3 = [] ∧
     schoening_kSat ([] : CNF) (fun _ => (0, 0)) [1] 3 = (3, [1])) :=
  ⟨by decide, schoening_kSat_idempotent [[1]] (fun _ => (0, 0)) [1] 3 (by decide)⟩

lemma schoeningAux_budget (cnf : CNF) (oracle : Nat → Nat × Nat) :
    ∀ n t cfg, (schoeningAux cnf oracle t n cfg).1 ≤ n ∧
      (schoeningAux cnf oracle t n cfg).2.2.length = n - (schoeningAux cnf oracle t n cfg).1 := by
  intro n
  induction n with
  | zero => intro t cfg; simp [schoeningAux_zero]
  | succ n ih =>
    intro t cfg
    by_cases h : checkCfg cnf cfg
    · rw [schoeningAux_sat cnf oracle t n cfg h]
      simp
    · rw [schoeningAux_unsat cnf oracle t n cfg
        (by rwa [Bool.not_eq_true] at h)]
      obtain ⟨h1, h2⟩ := ih (t + 1) (schoeningStep cnf oracle t cfg).1
      refine ⟨le_trans h1 (Nat.le_succ n), ?_⟩
      simp only [List.length_cons, h2]
      omega

/-- C3: The remaining budget returned by `schoening_kSat` is at most the
initial budget `nTries` (and non-negative, being a `Nat`), and the number of
flips performed equals the initial budget minus the returned budget. -/
theorem schoening_kSat_budget (cnf : CNF) (oracle : Nat → Nat × Nat)
    (cfg : Cfg) (nTries : Nat) :
    (schoening_kSat cnf oracle cfg nTries).1 ≤ nTries ∧
    (schoeningTrace cnf oracle cfg nTries).length =
      nTries - (schoening_kSat cnf oracle cfg nTries).1 :=
  schoeningAux_budget cnf oracle nTries 0 cfg

lemma schoeningAux_term (cnf : CNF) (oracle : Nat → Nat × Nat) :
    ∀ n t cfg, (schoeningAux cnf oracle t n cfg).1 = 0 ∨
      checkCfg cnf (schoeningAux cnf oracle t n cfg).2.1 = true := by
  intro n
  induction n with
  | zero => intro t cfg; simp [schoeningAux_zero]
  | succ n ih =>
    intro t cfg
    by_cases h : checkCfg cnf cfg
    · rw [schoeningAux_sat cnf oracle t n cfg h]
      exact Or.inr h
    · rw [schoeningAux_unsat cnf oracle t n cfg (by rwa [Bool.not_eq_true] at h)]
      exact ih (t + 1) (schoeningStep cnf oracle t cfg).1

/-- C4: Every run of `schoening_kSat` terminates (the embedding is a total
function) in one of the two terminal states: the budget has been driven to 0,
or the satisfaction check at the top of the loop succeeded on the returned
assignment. -/
theorem schoening_kSat_terminates (cnf : CNF) (oracle : Nat → Nat × Nat)
    (cfg : Cfg) (nTries : Nat) :
    (schoening_kSat cnf oracle cfg nTries).1 = 0 ∨
    checkCfg cnf (schoening_kSat cnf oracle cfg nTries).2 = true :=
  schoeningAux_term cnf oracle nTries 0 cfg

lemma unsat_filter_ne_nil (cnf : CNF) (cfg : Cfg) (h : checkCfg cnf cfg = false) :
    cnf.filter (notSat cfg) ≠ [] := by
  unfold checkCfg at h
  rw [List.all_eq_false] at h
  obtain ⟨ci, hci, hfail⟩ := h
  have hcnt : ci.countP (litSat cfg) = 0 := by
    by_contra hc
    exact hfail (by simp [hc])
  have hns : notSat cfg ci = true := by
    unfold notSat checkCfg
    simp [hcnt]
  exact List.ne_nil_of_mem (List.mem_filter.mpr ⟨hci, hns⟩)

/-- C5: Whenever the formula-level check fails, the list of currently
unsatisfied clauses built inside `schoening_kSat` is non-empty, so the random
clause selection never sees an empty list: `checkCfg` and "no unsatisfied
clause" always agree. -/
theorem checkCfg_false_unsat_nonempty (cnf : CNF) (cfg : Cfg)
    (h : checkCfg cnf cfg = false) :
    cnf.filter (notSat cfg) ≠ [] :=
  unsat_filter_ne_nil cnf cfg h

/-- Witness for C5 at a concrete unsatisfied formula. -/
theorem checkCfg_false_unsat_nonempty_witness :
    checkCfg [[1]] [0] = false ∧ List.filter (notSat [0]) [[1]] ≠ [] :=
  ⟨by decide, checkCfg_false_unsat_nonempty [[1]] [0] (by decide)⟩

/-- Every clause of the CNF is non-empty (`random.choice` on an empty clause
would raise in Python, so no flip can originate from an empty clause). -/
def clausesNonempty (cnf : CNF) : Prop :=
  ∀ ci ∈ cnf, ci ≠ []

lemma schoeningStep_sound (cnf : CNF) (oracle : Nat → Nat × Nat) (t : Nat)
    (cfg : Cfg) (hch : checkCfg cnf cfg = false) (hne : clausesNonempty cnf) :
    ∃ ci ∈ cnf, checkCfg [ci] cfg = false ∧ ∃ li ∈ ci,
      (schoeningStep cnf oracle t cfg).2 = |li| - 1 ∧
      (schoeningStep cnf oracle t cfg).1 =
        pySet cfg (|li| - 1) (1 - pyGetD cfg (|li| - 1)) := by
  have hnil := unsat_filter_ne_nil cnf cfg hch
  have hlen : 0 < (cnf.filter (notSat cfg)).length := List.length_pos.mpr hnil
  have hidx : (oracle t).1 % (cnf.filter (notSat cfg)).length <
      (cnf.filter (notSat cfg)).length := Nat.mod_lt _ hlen
  set ci := (cnf.filter (notSat cfg)).getD
      ((oracle t).1 % (cnf.filter (notSat cfg)).length) [] with hci
  have hciel : ci = (cnf.filter (notSat cfg))[(oracle t).1 % (cnf.filter (notSat cfg)).length] := by
    rw [hci, List.getD_eq_getElem?_getD, List.getElem?_eq_getElem hidx, Option.getD_some]
  have hcimem : ci ∈ cnf.filter (notSat cfg) := by
    rw [hciel]
    exact List.getElem_mem _
  obtain ⟨hcicnf, hcins⟩ := List.mem_filter.mp hcimem
  have hcifalse : checkCfg [ci] cfg = false := by
    have := of_decide_eq_true hcins
    unfold notSat at hcins
    simpa using hcins
  have hcinil : ci ≠ [] := hne ci hcicnf
  have hclen : 0 < ci.length := List.length_pos.mpr hcinil
  have hlidx : (oracle t).2 % ci.length < ci.length := Nat.mod_lt _ hclen
  set li := ci.getD ((oracle t).2 % ci.length) 0 with hli
  have hliel : li = ci[(oracle t).2 % ci.length] := by
    rw [hli, List.getD_eq_getElem?_getD, List.getElem?_eq_getElem hlidx, Option.getD_some]
  have hlimem : li ∈ ci := by
    rw [hliel]
    exact List.getElem_mem _
  refine ⟨ci, hcicnf, hcifalse, li, hlimem, ?_, ?_⟩
  · rfl
  · rfl

lemma schoeningAux_flips_sound (cnf : CNF) (oracle : Nat → Nat × Nat)
    (hne : clausesNonempty cnf) :
    ∀ n t cfg, ∀ p ∈ (schoeningAux cnf oracle t n cfg).2.2,
      ∃ ci ∈ cnf, checkCfg [ci] p.1 = false ∧ ∃ li ∈ ci, p.2 = |li| - 1 := by
  intro n
  induction n with
  | zero => intro t cfg p hp; simp [schoeningAux_zero] at hp
  | succ n ih =>
    intro t cfg p hp
    by_cases h : checkCfg cnf cfg
    · rw [schoeningAux_sat cnf oracle t n cfg h] at hp
      simp at hp
    · have h' : checkCfg cnf cfg = false := by rwa [Bool.not_eq_true] at h
      rw [schoeningAux_unsat cnf oracle t n cfg h'] at hp
      simp only [List.mem_cons] at hp
      rcases hp with hp | hp
      · obtain ⟨ci, hcicnf, hcifalse, li, hlimem, hvid, _⟩ :=
          schoeningStep_sound cnf oracle t cfg h' hne
        subst hp
        exact ⟨ci, hcicnf, hcifalse, li, hlimem, hvid⟩
      · exact ih (t + 1) (schoeningStep cnf oracle t cfg).1 p hp

/-- C6: Every flip performed by `schoening_kSat` targets the index
`vId = abs(l) - 1` of some literal `l` of some clause of the CNF that is
unsatisfied under the assignment at the moment of the flip. -/
theorem schoening_kSat_flips_violated (cnf : CNF) (oracle : Nat → Nat × Nat)
    (cfg : Cfg) (nTries : Nat) (hne : clausesNonempty cnf) :
    ∀ p ∈ schoeningTrace cnf oracle cfg nTries,
      ∃ ci ∈ cnf, checkCfg [ci] p.1 = false ∧ ∃ li ∈ ci, p.2 = |li| - 1 :=
  schoeningAux_flips_sound cnf oracle hne nTries 0 cfg

/-- Witness for C6: a run on `[[1]]` from `[0]` performs one flip, recorded in
the trace, and it targets the violated unit clause. -/
theorem schoening_kSat_flips_violated_witness :
    clausesNonempty [[1]] ∧
    ∀ p ∈ schoeningTrace [[1]] (fun _ => (0, 0)) [0] 2,
      ∃ ci ∈ [[1]], checkCfg [ci] p.1 = false ∧ ∃ li ∈ ci, p.2 = |li| - 1 :=
  ⟨by unfold clausesNonempty; decide,
   schoening_kSat_flips_violated [[1]] (fun _ => (0, 0)) [0] 2
     (by unfold clausesNonempty; decide)⟩

/-- Every literal of the CNF is nonzero (the data-model invariant; a literal
`0` would make Python's `abs(0)-1 = -1` wrap to the last list cell). -/
def litsNonzero (cnf : CNF) : Prop :=
  ∀ ci ∈ cnf, ∀ li ∈ ci, li ≠ 0

/-- Variable `v` (1-indexed) occurs in some clause of the CNF. -/
def varOccurs (cnf : CNF) (v : Nat) : Prop :=
  ∃ ci ∈ cnf, ∃ li ∈ ci, li.natAbs = v

lemma pySet_of_ne_zero (cfg : Cfg) (li v : Int) (h : li ≠ 0) :
    pySet cfg (|li| - 1) v = cfg.set (li.natAbs - 1) v := by
  have h1 : (1 : Int) ≤ |li| := by
    rcases lt_or_gt_of_ne h with h' | h'
    · calc (1 : Int) ≤ -li := by omega
        _ ≤ |li| := by rw [abs_of_neg h']
    · calc (1 : Int) ≤ li := by omega
        _ ≤ |li| := by rw [abs_of_pos h']
  have h2 : ¬ (|li| - 1 < 0) := by omega
  have h3 : (|li| - 1).toNat = li.natAbs - 1 := by
    rw [Int.abs_eq_natAbs]
    omega
  simp [pySet, h2, h3]

lemma getD_set_ne (cfg : Cfg) (k i : Nat) (v : Int) (h : k ≠ i) :
    (cfg.set k v).getD i 0 = cfg.getD i 0 := by
  rw [List.getD_eq_getElem?_getD, List.getD_eq_getElem?_getD,
    List.getElem?_set_ne h]

lemma schoeningAux_frame (cnf : CNF) (oracle : Nat → Nat × Nat)
    (hne : clausesNonempty cnf) (hnz : litsNonzero cnf) :
    ∀ n t cfg, ((schoeningAux cnf oracle t n cfg).2.1).length = cfg.length ∧
      ∀ i : Nat, ¬ varOccurs cnf (i + 1) →
        ((schoeningAux cnf oracle t n cfg).2.1).getD i 0 = cfg.getD i 0 := by
  intro n
  induction n with
  | zero => intro t cfg; simp [schoeningAux_zero]
  | succ n ih =>
    intro t cfg
    by_cases h : checkCfg cnf cfg
    · rw [schoeningAux_sat cnf oracle t n cfg h]
      simp
    · have h' : checkCfg cnf cfg = false := by rwa [Bool.not_eq_true] at h
      rw [schoeningAux_unsat cnf oracle t n cfg h']
      obtain ⟨ci, hcicnf, _, li, hlimem, _, hstep⟩ :=
        schoeningStep_sound cnf oracle t cfg h' hne
      have hlinz : li ≠ 0 := hnz ci hcicnf li hlimem
      have hset : (schoeningStep cnf oracle t cfg).1 =
          cfg.set (li.natAbs - 1) (1 - pyGetD cfg (|li| - 1)) := by
        rw [hstep, pySet_of_ne_zero cfg li _ hlinz]
      obtain ⟨ihlen, ihframe⟩ := ih (t + 1) (schoeningStep cnf oracle t cfg).1
      constructor
      · rw [ihlen, hset, List.length_set]
      · intro i hocc
        have hne' : li.natAbs - 1 ≠ i := by
          intro hcontra
          apply hocc
          have h1 : 1 ≤ li.natAbs := Int.natAbs_pos.mpr hlinz
          exact ⟨ci, hcicnf, li, hlimem, by omega⟩
        rw [ihframe i hocc, hset, getD_set_ne cfg _ i _ hne']

/-- C10: `schoening_kSat` is pure in the CNF (which it only reads), keeps
the assignment's length unchanged, and only writes at indices `v-1` for
variables `v` occurring in some clause: every entry of a variable that appears
in no clause is returned with its initial value. -/
theorem schoening_kSat_frame (cnf : CNF) (oracle : Nat → Nat × Nat)
    (cfg : Cfg) (nTries : Nat) (hne : clausesNonempty cnf) (hnz : litsNonzero cnf) :
    ((schoening_kSat cnf oracle cfg nTries).2).length = cfg.length ∧
    ∀ i : Nat, ¬ varOccurs cnf (i + 1) →
      ((schoening_kSat cnf oracle cfg nTries).2).getD i 0 = cfg.getD i 0 :=
  schoeningAux_frame cnf oracle hne hnz nTries 0 cfg

/-- Witness for C10: running on `[[1]]` from `[0, 7]`, variable 2 occurs in no
clause, and its entry is untouched while the length stays 2. -/
theorem schoening_kSat_frame_witness :
    clausesNonempty [[1]] ∧ litsNonzero [[1]] ∧
    (((schoening_kSat [[1]] (fun _ => (0, 0)) [0, 7] 4).2).length = ([0, 7] : Cfg).length ∧
     ∀ i : Nat, ¬ varOccurs [[1]] (i + 1) →
       ((schoening_kSat [[1]] (fun _ => (0, 0)) [0, 7] 4).2).getD i 0 =
         ([0, 7] : Cfg).getD i 0) :=
  ⟨by unfold clausesNonempty; decide, by unfold litsNonzero; decide,
   schoening_kSat_frame [[1]] (fun _ => (0, 0)) [0, 7] 4
     (by unfold clausesNonempty; decide) (by unfold litsNonzero; decide)⟩

lemma c7_step (o : Nat → Nat × Nat) :
    schoeningStep [[1, 2, 3]] o 0 [0, 0, 0] = ([1, 0, 0], 0) ∨
    schoeningStep [[1, 2, 3]] o 0 [0, 0, 0] = ([0, 1, 0], 1) ∨
    schoeningStep [[1, 2, 3]] o 0 [0, 0, 0] = ([0, 0, 1], 2) := by
  have hfil : List.filter (notSat [0, 0, 0]) [[1, 2, 3]] = [[1, 2, 3]] := by decide
  have hk : (o 0).2 % 3 = 0 ∨ (o 0).2 % 3 = 1 ∨ (o 0).2 % 3 = 2 := by omega
  unfold schoeningStep
  rw [hfil]
  rcases hk with h | h | h
  · left
    simp [Nat.mod_one, h, pySet, pyGetD]
  · right; left
    simp [Nat.mod_one, h, pySet, pyGetD]
  · right; right
    simp [Nat.mod_one, h, pySet, pyGetD]

/-- C7: On the CNF `[(1,2,3)]` with assignment `[0,0,0]` and budget 5, for
every sequence of random draws the engine performs exactly one flip (setting
one variable to 1), detects satisfaction at the next loop check, and returns
remaining budget 4 with a satisfying assignment. -/
theorem schoening_scenario2 (o : Nat → Nat × Nat) :
    (schoening_kSat [[1, 2, 3]] o [0, 0, 0] 5).1 = 4 ∧
    checkCfg [[1, 2, 3]] (schoening_kSat [[1, 2, 3]] o [0, 0, 0] 5).2 = true ∧
    (schoeningTrace [[1, 2, 3]] o [0, 0, 0] 5).length = 1 := by
  have hstart := schoeningAux_unsat [[1, 2, 3]] o 0 4 [0, 0, 0] (by decide)
  rcases c7_step o with hs | hs | hs <;>
    · rw [hs] at hstart
      rw [schoeningAux_of_sat [[1, 2, 3]] o 1 4 _ (by decide)] at hstart
      refine ⟨?_, ?_, ?_⟩ <;>
        simp only [schoening_kSat, schoeningTrace, show (5 : Nat) = 4 + 1 from rfl,
          hstart] <;> decide

lemma c8_step0 (o : Nat → Nat × Nat) (t : Nat) :
    schoeningStep [[1], [-1]] o t [0] = ([1], 0) := by
  have hfil : List.filter (notSat [0]) [[1], [-1]] = [[1]] := by decide
  unfold schoeningStep
  rw [hfil]
  simp [Nat.mod_one, pySet, pyGetD]

lemma c8_step1 (o : Nat → Nat × Nat) (t : Nat) :
    schoeningStep [[1], [-1]] o t [1] = ([0], 0) := by
  have hfil : List.filter (notSat [1]) [[1], [-1]] = [[-1]] := by decide
  unfold schoeningStep
  rw [hfil]
  simp [Nat.mod_one, pySet, pyGetD]

lemma c8_run (o : Nat → Nat × Nat) :
    ∀ n t,
      ((schoeningAux [[1], [-1]] o t n [0]).1 = 0 ∧
       (schoeningAux [[1], [-1]] o t n [0]).2.1 =
         (if n % 2 = 0 then ([0] : Cfg) else [1]) ∧
       (schoeningAux [[1], [-1]] o t n [0]).2.2.length = n) ∧
      ((schoeningAux [[1], [-1]] o t n [1]).1 = 0 ∧
       (schoeningAux [[1], [-1]] o t n [1]).2.1 =
         (if n % 2 = 0 then ([1] : Cfg) else [0]) ∧
       (schoeningAux [[1], [-1]] o t n [1]).2.2.length = n) := by
  intro n
  induction n with
  | zero => intro t; simp [schoeningAux_zero]
  | succ n ih =>
    intro t
    obtain ⟨⟨ih01, ih02, ih03⟩, ⟨ih11, ih12, ih13⟩⟩ := ih (t + 1)
    constructor
    · rw [schoeningAux_unsat [[1], [-1]] o t n [0] (by decide), c8_step0 o t]
      refine ⟨ih11, ?_, by simp [ih13]⟩
      rw [ih12]
      by_cases hp : n % 2 = 0
      · have h1 : (n + 1) % 2 = 1 := by omega
        simp [hp, h1]
      · have h1 : (n + 1) % 2 = 0 := by omega
        simp [hp, h1]
    · rw [schoeningAux_unsat [[1], [-1]] o t n [1] (by decide), c8_step1 o t]
      refine ⟨ih01, ?_, by simp [ih03]⟩
      rw [ih02]
      by_cases hp : n % 2 = 0
      · have h1 : (n + 1) % 2 = 1 := by omega
        simp [hp, h1]
      · have h1 : (n + 1) % 2 = 0 := by omega
        simp [hp, h1]

/-- C8: On the contradictory CNF `[(1,),(-1,)]` with any binary
single-variable assignment and budget 10, every run flips variable 1 back and
forth through all 10 tries, returns remaining budget 0, and the returned
assignment still does not satisfy the formula. -/
theorem schoening_scenario3 (o : Nat → Nat × Nat) (cfg : Cfg)
    (h : cfg = [0] ∨ cfg = [1]) :
    (schoening_kSat [[1], [-1]] o cfg 10).1 = 0 ∧
    checkCfg [[1], [-1]] (schoening_kSat [[1], [-1]] o cfg 10).2 = false ∧
    (schoeningTrace [[1], [-1]] o cfg 10).length = 10 := by
  obtain ⟨⟨h01, h02, h03⟩, ⟨h11, h12, h13⟩⟩ := c8_run o 10 0
  rcases h with h | h <;> subst h
  · exact ⟨h01, by rw [show (schoening_kSat [[1], [-1]] o [0] 10).2 =
      (schoeningAux [[1], [-1]] o 0 10 [0]).2.1 from rfl, h02]; decide,
      h03⟩
  · exact ⟨h11, by rw [show (schoening_kSat [[1], [-1]] o [1] 10).2 =
      (schoeningAux [[1], [-1]] o 0 10 [1]).2.1 from rfl, h12]; decide,
      h13⟩

/-- Witness for C8 with the all-zero oracle and the assignment `[0]`. -/
theorem schoening_scenario3_witness :
    (([0] : Cfg) = [0] ∨ ([0] : Cfg) = [1]) ∧
    ((schoening_kSat [[1], [-1]] (fun _ => (0, 0)) [0] 10).1 = 0 ∧
     checkCfg [[1], [-1]] (schoening_kSat [[1], [-1]] (fun _ => (0, 0)) [0] 10).2 = false ∧
     (schoeningTrace [[1], [-1]] (fun _ => (0, 0)) [0] 10).length = 10) :=
  ⟨Or.inl rfl, schoening_scenario3 (fun _ => (0, 0)) [0] (Or.inl rfl)⟩

/-- `constructCNF(nC, nL, nV)` from the source, with the randomness explicit:
`sample ci` models the `random.sample(range(1, nV+1), nL)` draw made for
clause `ci` (a list of `nL` distinct variables from 1..nV — see
`sampleSpec`), and `sign ci vId` models the `random.choice([-vId, vId])`
polarity draw for variable `vId` of clause `ci`. -/
def constructCNF (sample : Nat → List Nat) (sign : Nat → Nat → Bool)
    (nC : Nat) : CNF :=
  (List.range nC).map (fun ci =>
    (sample ci).map (fun vId => if sign ci vId then (vId : Int) else -(vId : Int)))

/-- The contract of `random.sample(range(1, nV+1), nL)`: each draw is a list
of `nL` pairwise-distinct values from `{1..nV}` (Python raises `ValueError`
when `nL > nV`, so no draw exists in that case). -/
def sampleSpec (sample : Nat → List Nat) (nL nV : Nat) : Prop :=
  ∀ ci, (sample ci).length = nL ∧ (sample ci).Nodup ∧
    ∀ v ∈ sample ci, 1 ≤ v ∧ v ≤ nV

lemma natAbs_signed (sign : Nat → Nat → Bool) (c v : Nat) :
    (if sign c v then (v : Int) else -(v : Int)).natAbs = v := by
  by_cases hs : sign c v <;> simp [hs]

/-- C9: Under the `random.sample` contract, `constructCNF` returns exactly
`nC` clauses, each a list of exactly `nL` literals with pairwise-distinct,
nonzero magnitudes lying in `{1..nV}`; and the contract itself forces
`nL ≤ nV` (for `nL > nV` the sampling fails, so no generation is possible). -/
theorem constructCNF_spec (sample : Nat → List Nat) (sign : Nat → Nat → Bool)
    (nC nL nV : Nat) (h : sampleSpec sample nL nV) :
    nL ≤ nV ∧
    (constructCNF sample sign nC).length = nC ∧
    ∀ ci ∈ constructCNF sample sign nC,
      ci.length = nL ∧ (ci.map Int.natAbs).Nodup ∧
      ∀ li ∈ ci, li ≠ 0 ∧ 1 ≤ li.natAbs ∧ li.natAbs ≤ nV := by
  obtain ⟨hlen0, hnd0, hmem0⟩ := h 0
  refine ⟨?_, by simp [constructCNF], ?_⟩
  · have hsub : (sample 0).toFinset ⊆ Finset.Icc 1 nV := by
      intro v hv
      rw [List.mem_toFinset] at hv
      exact Finset.mem_Icc.mpr (hmem0 v hv)
    have hcard := Finset.card_le_card hsub
    rw [List.toFinset_card_of_nodup hnd0, hlen0, Nat.card_Icc] at hcard
    omega
  · intro ci hci
    rw [constructCNF, List.mem_map] at hci
    obtain ⟨c, _, hc⟩ := hci
    obtain ⟨hlen, hnd, hmem⟩ := h c
    subst hc
    have habs : (List.map (fun vId => if sign c vId then (vId : Int) else -(vId : Int))
        (sample c)).map Int.natAbs = sample c := by
      rw [List.map_map]
      have : ∀ v ∈ sample c,
          (Int.natAbs ∘ fun vId => if sign c vId then (vId : Int) else -(vId : Int)) v =
            id v := by
        intro v _
        simp only [Function.comp_apply, id_eq]
        exact natAbs_signed sign c v
      rw [List.map_congr_left this, List.map_id]
    refine ⟨by simp [hlen], by rw [habs]; exact hnd, ?_⟩
    intro li hli
    rw [List.mem_map] at hli
    obtain ⟨v, hv, hvli⟩ := hli
    obtain ⟨hv1, hv2⟩ := hmem v hv
    have habsli : li.natAbs = v := by
      rw [← hvli]
      exact natAbs_signed sign c v
    refine ⟨?_, by omega, by omega⟩
    intro hzero
    rw [hzero] at habsli
    simp at habsli
    omega

/-- Witness for C9 at the spec's concrete parameters `nC = 43`, `nL = 3`,
`nV = 10`, with a constant sample draw. -/
theorem constructCNF_spec_witness :
    sampleSpec (fun _ => [1, 2, 3]) 3 10 ∧
    (3 ≤ 10 ∧
     (constructCNF (fun _ => [1, 2, 3]) (fun _ _ => true) 43).length = 43 ∧
     ∀ ci ∈ constructCNF (fun _ => [1, 2, 3]) (fun _ _ => true) 43,
       ci.length = 3 ∧ (ci.map Int.natAbs).Nodup ∧
       ∀ li ∈ ci, li ≠ 0 ∧ 1 ≤ li.natAbs ∧ li.natAbs ≤ 10) := by
  have hs : sampleSpec (fun _ => [1, 2, 3]) 3 10 := by
    intro ci
    refine ⟨rfl, ?_, ?_⟩
    · show ([1, 2, 3] : List Nat).Nodup
      decide
    · show ∀ v ∈ ([1, 2, 3] : List Nat), 1 ≤ v ∧ v ≤ 10
      decide
  exact ⟨hs, constructCNF_spec (fun _ => [1, 2, 3]) (fun _ _ => true) 43 3 10 hs⟩
